import Mathlib

/-
  A shallow embedding of libgit2's src/apply.c (the patch-application
  core) together with proofs about it.

  Byte buffers are `List Nat` (one element per byte).  A `git_diff_line`
  carries a content pointer plus a length; here a line's content is the
  byte list itself, so `content_len` is `content.length`.  Machine sizes
  (`size_t`, `unsigned int`) are `Nat`.  Fallible C functions return
  `Except ApplyError`.  External collaborators (zlib inflate,
  `git_delta_apply`, the index, the pre-image reader, the blob writer)
  are passed as function parameters or modelled from their documented
  interfaces, since apply.c only calls them through those interfaces.
-/

/-- Origin tag of a diff line (`git_diff_line.origin` restricted to the
values apply.c inspects).  Lines the image allocates itself when
splitting a source buffer are zero-initialized by `git_pool_mallocz`,
which is none of the three tags; that state is `unset`. -/
inductive LineOrigin where
  | context
  | addition
  | deletion
  | unset
deriving DecidableEq

/-- `git_diff_line`: content bytes plus origin.  `content_len` is
`content.length`.  The `content_offset` field is written by
`patch_line_init` but never read anywhere in apply.c, so it is not
modelled. -/
structure DiffLine where
  content : List Nat
  origin : LineOrigin
deriving DecidableEq

/-- One iteration of the line-splitting loop of
`patch_image_init_fromstr`: starting at `start`, `memchr` scans for the
first newline (byte 10); the line extends through that newline
(`end++`), or to the end of the buffer when there is none.  Returns the
line's bytes and the rest of the buffer. -/
def next_line : List Nat → List Nat × List Nat
  | [] => ([], [])
  | b :: bs =>
    if b = 10 then ([10], bs)
    else
      let p := next_line bs
      (b :: p.1, p.2)

theorem next_line_append (l : List Nat) : (next_line l).1 ++ (next_line l).2 = l := by
  induction l with
  | nil => rfl
  | cons b bs ih =>
    by_cases hb : b = 10
    · simp [next_line, hb]
    · simp only [next_line, if_neg hb]
      simpa using ih

theorem next_line_snd_le (l : List Nat) : (next_line l).2.length ≤ l.length := by
  induction l with
  | nil => simp [next_line]
  | cons b bs ih =>
    by_cases hb : b = 10
    · simp [next_line, hb]
    · simp only [next_line, if_neg hb]
      exact Nat.le_trans ih (Nat.le_succ _)

theorem next_line_snd_lt (b : Nat) (bs : List Nat) :
    (next_line (b :: bs)).2.length < (b :: bs).length := by
  by_cases hb : b = 10
  · simp [next_line, hb]
  · simp only [next_line, if_neg hb]
    exact Nat.lt_succ_of_le (next_line_snd_le bs)

/-- The loop of `patch_image_init_fromstr` (`for (start = in; start < in
+ in_len; start = end)`): split a buffer into lines, each including its
terminating newline when present.  An empty buffer yields no lines. -/
def split_lines : List Nat → List (List Nat)
  | [] => []
  | b :: bs =>
    have : (next_line (b :: bs)).2.length < (b :: bs).length := next_line_snd_lt b bs
    (next_line (b :: bs)).1 :: split_lines (next_line (b :: bs)).2
termination_by l => l.length

/-- `patch_image_init_fromstr`: build a patch image (its line vector)
from a byte buffer.  Every produced line is zero-initialized
(`git_pool_mallocz`), hence `origin = unset`. -/
def patch_image_init_fromstr (buf : List Nat) : List DiffLine :=
  (split_lines buf).map (fun c => { content := c, origin := LineOrigin.unset })

/-- The serialization loop at the end of `apply_hunks`
(`git_vector_foreach ... git_buf_put(out, line->content,
line->content_len)`): concatenate every line's content in order. -/
def image_serialize (image : List DiffLine) : List Nat :=
  (image.map DiffLine.content).flatten

theorem split_lines_flatten (l : List Nat) : (split_lines l).flatten = l := by
  induction l using split_lines.induct with
  | case1 => simp [split_lines]
  | case2 b bs hlt ih =>
    rw [split_lines]
    simp only [List.flatten_cons, ih]
    exact next_line_append (b :: bs)

/-- C1: serializing the line image built from any byte buffer `B` —
concatenating every line's content in order — reproduces `B` exactly,
including for the empty buffer and buffers not ending in a newline. -/
theorem C1_serialize_build_roundtrip (B : List Nat) :
    image_serialize (patch_image_init_fromstr B) = B := by
  unfold image_serialize patch_image_init_fromstr
  rw [List.map_map]
  have hc : (DiffLine.content ∘ fun c =>
      ({ content := c, origin := LineOrigin.unset } : DiffLine)) = id := rfl
  rw [hc, List.map_id]
  exact split_lines_flatten B

/-- The body of the comparison loop of `match_hunk` at index `i`:
compare `content_len` of `preimage[i]` and `image[linenum + i]`, then
`memcmp` their contents (over `content_len` bytes, which agree when the
length test passed). -/
def match_line (image preimage : List DiffLine) (linenum i : Nat) : Bool :=
  match preimage.get? i, image.get? (linenum + i) with
  | some preimage_line, some image_line =>
    decide (preimage_line.content.length = image_line.content.length) &&
      decide (preimage_line.content = image_line.content)
  | _, _ => false

/-- `match_hunk`: first ensure the hunk lies within the image
boundaries (`preimage len + linenum > image len` fails), then check an
exact match line by line. -/
def match_hunk (image preimage : List DiffLine) (linenum : Nat) : Bool :=
  if preimage.length + linenum > image.length then false
  else (List.range preimage.length).all (fun i => match_line image preimage linenum i)

/-- `find_hunk_linenum`: clamp the proposed line number to the image
length, run `match_hunk` there (and nowhere else), and return the
clamped line number together with the match result. -/
def find_hunk_linenum (image preimage : List DiffLine) (linenum : Nat) :
    Nat × Bool :=
  let m := image.length
  let ln := if linenum > m then m else linenum
  (ln, match_hunk image preimage ln)

/-- C2: the hunk matcher returns true iff `at + len(preimage) ≤
len(image)` and every preimage line agrees with the image line at the
corresponding index in both byte length and byte content; equality is
strict byte equality with no normalization. -/
theorem C2_match_hunk_iff (image preimage : List DiffLine) (at_ : Nat) :
    match_hunk image preimage at_ = true ↔
      (at_ + preimage.length ≤ image.length ∧
        ∀ i, i < preimage.length →
          (preimage.get? i).map (fun l => l.content.length) =
              (image.get? (at_ + i)).map (fun l => l.content.length) ∧
            (preimage.get? i).map DiffLine.content =
              (image.get? (at_ + i)).map DiffLine.content) := by
  unfold match_hunk
  by_cases hb : preimage.length + at_ > image.length
  · rw [if_pos hb]
    refine iff_of_false (by simp) fun hc => ?_
    have := hc.1
    omega
  · rw [if_neg hb]
    push_neg at hb
    rw [List.all_eq_true]
    constructor
    · intro h
      refine ⟨by omega, fun i hi => ?_⟩
      have hm := h i (List.mem_range.mpr hi)
      have hii : at_ + i < image.length := by omega
      have hp : preimage.get? i = some (preimage.get ⟨i, hi⟩) :=
        List.get?_eq_get hi
      have hq : image.get? (at_ + i) = some (image.get ⟨at_ + i, hii⟩) :=
        List.get?_eq_get hii
      unfold match_line at hm
      rw [hp, hq] at hm
      simp only [Bool.and_eq_true, decide_eq_true_eq, List.get_eq_getElem] at hm
      rw [hp, hq]
      simp only [Option.map_some', Option.some.injEq, List.get_eq_getElem]
      exact hm
    · rintro ⟨hle, h⟩ i hi
      have hip : i < preimage.length := List.mem_range.mp hi
      have hii : at_ + i < image.length := by omega
      have hp : preimage.get? i = some (preimage.get ⟨i, hip⟩) :=
        List.get?_eq_get hip
      have hq : image.get? (at_ + i) = some (image.get ⟨at_ + i, hii⟩) :=
        List.get?_eq_get hii
      obtain ⟨h1, h2⟩ := h i hip
      rw [hp, hq] at h1 h2
      simp only [Option.map_some', Option.some.injEq, List.get_eq_getElem] at h1 h2
      unfold match_line
      rw [hp, hq]
      simp only [Bool.and_eq_true, decide_eq_true_eq, List.get_eq_getElem]
      exact ⟨h1, h2⟩

/-- The `apply_err` conditions raised in apply.c, plus stand-ins for
propagated collaborator failures (`git_zstream_inflatebuf`,
`git_delta_apply`). -/
inductive ApplyError where
  | preimageMissingLine (linenum : Nat)
  | hunkDidNotApply (new_start : Nat)
  | inflatedLenMismatch
  | unknownBinaryDeltaType
  | noBinaryData
  | binaryNotClean
  | removalLeavesContents
  | zstreamFailed
  | deltaApplyFailed
deriving DecidableEq

/-- `update_hunk`: resize the line vector (insert null slots when the
postimage is longer than the preimage, remove the excess range when it
is shorter), then overwrite the `postlen` slots starting at `linenum`
with the postimage lines.  The net effect is this splice;
`update_hunk_vec_eq` below proves it equal to the literal
insert-null / remove-range / assignment-loop step sequence of the C. -/
def update_hunk (image : List DiffLine) (linenum : Nat)
    (preimage postimage : List DiffLine) : List DiffLine :=
  image.take linenum ++ postimage ++ image.drop (linenum + preimage.length)

/-- `git_vector_insert_null(&image->lines, linenum, postlen - prelen)`:
insert `n` null slots at index `idx`. -/
def vector_insert_null (l : List (Option DiffLine)) (idx n : Nat) :
    List (Option DiffLine) :=
  l.take idx ++ List.replicate n none ++ l.drop idx

/-- `git_vector_remove_range(&image->lines, linenum, prelen - postlen)`:
remove `n` slots starting at index `idx`. -/
def vector_remove_range (l : List (Option DiffLine)) (idx n : Nat) :
    List (Option DiffLine) :=
  l.take idx ++ l.drop (idx + n)

/-- The assignment loop of `update_hunk`
(`image->lines.contents[linenum + i] = git_vector_get(&postimage->lines, i)`). -/
def assign_lines : List (Option DiffLine) → Nat → List DiffLine → List (Option DiffLine)
  | l, _, [] => l
  | l, i, p :: ps => assign_lines (l.set i (some p)) (i + 1) ps

/-- `update_hunk` written exactly as the C step sequence, on a vector of
nullable line slots. -/
def update_hunk_vec (image : List (Option DiffLine)) (linenum : Nat)
    (preimage postimage : List DiffLine) : List (Option DiffLine) :=
  let postlen := postimage.length
  let prelen := preimage.length
  let resized :=
    if postlen > prelen then vector_insert_null image linenum (postlen - prelen)
    else if prelen > postlen then vector_remove_range image linenum (prelen - postlen)
    else image
  assign_lines resized linenum postimage

theorem assign_lines_eq (ps : List DiffLine) :
    ∀ (l : List (Option DiffLine)) (i : Nat), i + ps.length ≤ l.length →
      assign_lines l i ps = l.take i ++ ps.map some ++ l.drop (i + ps.length) := by
  induction ps with
  | nil =>
    intro l i _
    simp [assign_lines]
  | cons p ps ih =>
    intro l i h
    have hi : i < l.length := by
      simp only [List.length_cons] at h
      omega
    simp only [assign_lines]
    rw [ih (l.set i (some p)) (i + 1)
      (by rw [List.length_set]; simp only [List.length_cons] at h; omega)]
    rw [List.set_eq_take_cons_drop _ hi]
    have hlt : (l.take i).length = i := by
      rw [List.length_take]
      omega
    have h1 : (l.take i ++ some p :: l.drop (i + 1)).take (i + 1) =
        l.take i ++ [some p] := by
      rw [List.take_append_eq_append_take, hlt]
      simp
    have h2 : (l.take i ++ some p :: l.drop (i + 1)).drop (i + 1 + ps.length) =
        l.drop (i + (ps.length + 1)) := by
      rw [List.drop_append_eq_append_drop, hlt]
      have : i + 1 + ps.length - i = 1 + ps.length := by omega
      rw [this]
      simp only [List.drop_eq_nil_of_le (by omega : (l.take i).length ≤ i + 1 + ps.length),
        List.nil_append]
      rw [show (1 : Nat) + ps.length = ps.length + 1 from by omega]
      simp only [List.drop_succ_cons, List.drop_drop]
      congr 1
      omega
    rw [h1, h2]
    simp [List.append_assoc]

theorem drop_append_ge (X Y : List (Option DiffLine)) (n : Nat)
    (h : X.length ≤ n) : (X ++ Y).drop n = Y.drop (n - X.length) := by
  rw [List.drop_append_eq_append_drop, List.drop_eq_nil_of_le h, List.nil_append]

theorem update_hunk_vec_eq (image : List DiffLine) (linenum : Nat)
    (preimage postimage : List DiffLine)
    (h : linenum + preimage.length ≤ image.length) :
    update_hunk_vec (image.map some) linenum preimage postimage =
      (update_hunk image linenum preimage postimage).map some := by
  unfold update_hunk_vec update_hunk vector_insert_null vector_remove_range
  dsimp only
  have hln : linenum ≤ image.length := by omega
  have htk : ((image.map some).take linenum).length = linenum := by
    rw [List.length_take, List.length_map]
    omega
  by_cases h1 : postimage.length > preimage.length
  · rw [if_pos h1]
    rw [List.append_assoc]
    rw [assign_lines_eq _ _ _ (by
      simp only [List.length_append, List.length_replicate, List.length_take,
        List.length_drop, List.length_map]
      omega)]
    rw [List.take_left' htk]
    rw [drop_append_ge _ _ _ (by rw [htk]; omega), htk]
    rw [drop_append_ge _ _ _ (by rw [List.length_replicate]; omega),
      List.length_replicate]
    rw [List.drop_drop]
    have harith : linenum + (linenum + postimage.length - linenum -
        (postimage.length - preimage.length)) =
        linenum + preimage.length := by omega
    rw [harith, ← List.map_take, ← List.map_drop]
    simp [List.map_append]
  · rw [if_neg h1]
    by_cases h2 : preimage.length > postimage.length
    · rw [if_pos h2]
      rw [assign_lines_eq _ _ _ (by
        simp only [List.length_append, List.length_take, List.length_drop,
          List.length_map]
        omega)]
      rw [List.take_left' htk]
      rw [drop_append_ge _ _ _ (by rw [htk]; omega), htk]
      rw [List.drop_drop]
      have harith : linenum + (preimage.length - postimage.length) +
          (linenum + postimage.length - linenum) =
          linenum + preimage.length := by omega
      rw [harith, ← List.map_take, ← List.map_drop]
      simp [List.map_append]
    · rw [if_neg h2]
      have heq : postimage.length = preimage.length := by omega
      rw [assign_lines_eq _ _ _ (by rw [List.length_map]; omega)]
      rw [heq, ← List.map_take, ← List.map_drop]
      simp [List.map_append]

/-- The `git_delta_t` status values apply.c distinguishes (all others
behave like `modified` there). -/
inductive DeltaStatus where
  | added
  | deleted
  | modified
  | renamed
  | copied
  | typechange
deriving DecidableEq

/-- `git_diff_file`: the fields apply.c reads (`path` and `mode`). -/
structure DiffFile where
  path : String
  mode : Nat
deriving DecidableEq

/-- `git_diff_delta`: the status, the `GIT_DIFF_FLAG_BINARY` bit of
`flags`, and the two per-side file records. -/
structure DiffDelta where
  status : DeltaStatus
  flag_binary : Bool
  old_file : DiffFile
  new_file : DiffFile
deriving DecidableEq

/-- `git_diff_binary_t`: `LITERAL`, `DELTA`, or `NONE` (any value other
than the first two takes the `unknown binary delta type` branch). -/
inductive BinaryKind where
  | literal
  | delta
  | noneKind
deriving DecidableEq

/-- `git_diff_binary_file`: payload kind (C field `type`), compressed
bytes (`data`, with `datalen = data.length`), and the declared inflated
length. -/
structure BinaryFilePayload where
  kind : BinaryKind
  data : List Nat
  inflatedlen : Nat
deriving DecidableEq

/-- `git_diff_binary`: `contains_data` flag plus the two payloads. -/
structure DiffBinary where
  contains_data : Bool
  old_file : BinaryFilePayload
  new_file : BinaryFilePayload
deriving DecidableEq

/-- `git_patch_hunk`: the fields apply.c reads.  `new_start` is
`hunk.hunk.new_start` (an `int`; nonnegative in any hunk header, hence
`Nat`); `line_start` and `line_count` delimit the hunk's annotated
lines within the patch's flat line table. -/
structure GitPatchHunk where
  new_start : Nat
  line_start : Nat
  line_count : Nat
deriving DecidableEq

/-- `git_patch`: the fields apply.c reads — the delta record, the flat
line table (`patch->lines`), the hunk list (`patch->hunks`), and the
binary payload pair (`patch->binary`). -/
structure GitPatch where
  delta : DiffDelta
  lines : List DiffLine
  hunks : List GitPatchHunk
  binary : DiffBinary
deriving DecidableEq

/-- The partition loop at the top of `apply_hunk`: walk the hunk's
annotated lines at indices `line_start + i` for `i < line_count`; a
missing line fails with `preimage does not contain line %d`; context
and deletion lines go to the preimage sequence, context and addition
lines to the postimage sequence, in order. -/
def hunk_images (lines : List DiffLine) :
    Nat → Nat → Except ApplyError (List DiffLine × List DiffLine)
  | _, 0 => Except.ok ([], [])
  | start, count + 1 =>
    match lines.get? start with
    | none => Except.error (ApplyError.preimageMissingLine start)
    | some line => do
      let (pre, post) ← hunk_images lines (start + 1) count
      let pre' := if line.origin = LineOrigin.context ∨
          line.origin = LineOrigin.deletion then line :: pre else pre
      let post' := if line.origin = LineOrigin.context ∨
          line.origin = LineOrigin.addition then line :: post else post
      Except.ok (pre', post')

/-- `apply_hunk`: derive the preimage/postimage line sequences, anchor
at `new_start ? new_start - 1 : 0`, locate via `find_hunk_linenum`
(which clamps and matches only there), and splice via `update_hunk`; a
match failure is `hunk at line %d did not apply` with the hunk's
`new_start`. -/
def apply_hunk (image : List DiffLine) (patch : GitPatch)
    (hunk : GitPatchHunk) : Except ApplyError (List DiffLine) := do
  let (preimage, postimage) ←
    hunk_images patch.lines hunk.line_start hunk.line_count
  let line_num := if hunk.new_start = 0 then 0 else hunk.new_start - 1
  let r := find_hunk_linenum image preimage line_num
  if r.2 then
    Except.ok (update_hunk image r.1 preimage postimage)
  else
    Except.error (ApplyError.hunkDidNotApply hunk.new_start)

/-- `apply_hunks`: build the line image from the source bytes, apply
every hunk in declared order, then serialize the image. -/
def apply_hunks (source : List Nat) (patch : GitPatch) :
    Except ApplyError (List Nat) := do
  let image := patch_image_init_fromstr source
  let image ← patch.hunks.foldlM (fun img h => apply_hunk img patch h) image
  Except.ok (image_serialize image)

theorem clamp_eq_min (ln m : Nat) : (if ln > m then m else ln) = min ln m := by
  split <;> omega

/-- C3: for a hunk whose annotated lines all resolve to the sequences
`pre`/`post`, `apply_hunk` attempts the match only at the single anchor
`new_start == 0 ? 0 : new_start - 1` clamped to the image length; it
fails with `hunk at line new_start did not apply` exactly when the
preimage does not match at that anchor, and on a match it splices there
— it never searches any other offset. -/
theorem C3_apply_hunk_single_anchor (image : List DiffLine)
    (patch : GitPatch) (hunk : GitPatchHunk) (pre post : List DiffLine)
    (h : hunk_images patch.lines hunk.line_start hunk.line_count =
      Except.ok (pre, post)) :
    (apply_hunk image patch hunk =
        Except.error (ApplyError.hunkDidNotApply hunk.new_start) ↔
      match_hunk image pre
        (min (if hunk.new_start = 0 then 0 else hunk.new_start - 1)
          image.length) = false) ∧
    (match_hunk image pre
        (min (if hunk.new_start = 0 then 0 else hunk.new_start - 1)
          image.length) = true →
      apply_hunk image patch hunk =
        Except.ok (update_hunk image
          (min (if hunk.new_start = 0 then 0 else hunk.new_start - 1)
            image.length) pre post)) := by
  unfold apply_hunk find_hunk_linenum
  rw [h]
  dsimp only [Bind.bind, Except.bind]
  simp only [clamp_eq_min]
  cases hm : match_hunk image pre
      (min (if hunk.new_start = 0 then 0 else hunk.new_start - 1)
        image.length) with
  | false => simp [hm]
  | true => simp [hm]

/-- `apply_binary_delta`: a zero-length payload means contents
identical to the source (`git_buf_put` of the source); otherwise
inflate the payload (`git_zstream_inflatebuf`, the collaborator
`inflate` here, `none` on failure), check the inflated size against the
declared `inflatedlen`, then dispatch on the payload kind:
`GIT_DIFF_BINARY_DELTA` applies `git_delta_apply` (collaborator
`delta_apply`), `GIT_DIFF_BINARY_LITERAL` takes the inflated bytes, and
anything else is `unknown binary delta type`. -/
def apply_binary_delta (inflate : List Nat → Option (List Nat))
    (delta_apply : List Nat → List Nat → Option (List Nat))
    (source : List Nat) (binary_file : BinaryFilePayload) :
    Except ApplyError (List Nat) :=
  if binary_file.data.length = 0 then Except.ok source
  else
    match inflate binary_file.data with
    | none => Except.error ApplyError.zstreamFailed
    | some inflated =>
      if inflated.length ≠ binary_file.inflatedlen then
        Except.error ApplyError.inflatedLenMismatch
      else
        match binary_file.kind with
        | BinaryKind.delta =>
          match delta_apply source inflated with
          | none => Except.error ApplyError.deltaApplyFailed
          | some data => Except.ok data
        | BinaryKind.literal => Except.ok inflated
        | BinaryKind.noneKind => Except.error ApplyError.unknownBinaryDeltaType

/-- `apply_binary`: require `contains_data` (`patch does not contain
binary data` otherwise); when both payloads have `datalen == 0` the
output is left empty (no-op); otherwise apply the `new_file` payload to
the source, apply the `old_file` payload to that result as a sanity
check, and fail with `binary patch did not apply cleanly` — disposing
the output — unless the check reconstructs the source byte-for-byte
(`source_len != reverse.size || memcmp(...)`; with equal lengths the
`memcmp` over `source_len` bytes is list equality). -/
def apply_binary (inflate : List Nat → Option (List Nat))
    (delta_apply : List Nat → List Nat → Option (List Nat))
    (source : List Nat) (patch : GitPatch) : Except ApplyError (List Nat) :=
  if !patch.binary.contains_data then Except.error ApplyError.noBinaryData
  else if patch.binary.old_file.data.length = 0 ∧
      patch.binary.new_file.data.length = 0 then Except.ok []
  else do
    let forward ←
      apply_binary_delta inflate delta_apply source patch.binary.new_file
    let reverse ←
      apply_binary_delta inflate delta_apply forward patch.binary.old_file
    if source.length ≠ reverse.length ∨ source ≠ reverse then
      Except.error ApplyError.binaryNotClean
    else Except.ok forward

/-- C5: for a binary file payload with `datalen > 0` whose inflation
succeeds, `apply_binary_delta` fails with `inflated delta does not
match expected length` exactly when the inflated size differs from the
declared `inflatedlen`; on disagreement no output is produced — it is
an error, never a warning. -/
theorem C5_inflatedlen_authoritative
    (inflate : List Nat → Option (List Nat))
    (delta_apply : List Nat → List Nat → Option (List Nat))
    (source : List Nat) (binary_file : BinaryFilePayload)
    (inflated : List Nat)
    (hdata : binary_file.data.length ≠ 0)
    (hinf : inflate binary_file.data = some inflated) :
    (apply_binary_delta inflate delta_apply source binary_file =
        Except.error ApplyError.inflatedLenMismatch ↔
      inflated.length ≠ binary_file.inflatedlen) := by
  unfold apply_binary_delta
  rw [if_neg hdata, hinf]
  dsimp only
  by_cases hl : inflated.length ≠ binary_file.inflatedlen
  · rw [if_pos hl]
    simp [hl]
  · rw [if_neg hl]
    simp only [hl, iff_false]
    cases binary_file.kind with
    | delta => cases delta_apply source inflated <;> simp
    | literal => simp
    | noneKind => simp

/-- C4: for every source buffer and binary patch with `contains_data`
set and at least one payload non-empty, `apply_binary` succeeds only
when applying the `old_file` payload to the forward result
reconstructs the source byte-for-byte, and whenever the reconstruction
differs it fails with `binary patch did not apply cleanly` and returns
no output. -/
theorem C4_binary_roundtrip
    (inflate : List Nat → Option (List Nat))
    (delta_apply : List Nat → List Nat → Option (List Nat))
    (source : List Nat) (patch : GitPatch)
    (hcd : patch.binary.contains_data = true)
    (hne : patch.binary.old_file.data.length ≠ 0 ∨
      patch.binary.new_file.data.length ≠ 0) :
    (∀ out, apply_binary inflate delta_apply source patch = Except.ok out →
      apply_binary_delta inflate delta_apply out patch.binary.old_file =
        Except.ok source) ∧
    (∀ forward reverse,
      apply_binary_delta inflate delta_apply source patch.binary.new_file =
        Except.ok forward →
      apply_binary_delta inflate delta_apply forward patch.binary.old_file =
        Except.ok reverse →
      reverse ≠ source →
      apply_binary inflate delta_apply source patch =
        Except.error ApplyError.binaryNotClean) := by
  unfold apply_binary
  rw [if_neg (by simp [hcd])]
  rw [if_neg (by
    rintro ⟨h1, h2⟩
    rcases hne with hh | hh
    · exact hh h1
    · exact hh h2)]
  constructor
  · intro out hout
    cases hf : apply_binary_delta inflate delta_apply source
        patch.binary.new_file with
    | error e =>
      rw [hf] at hout
      exact absurd hout (by simp [Bind.bind, Except.bind])
    | ok forward =>
      rw [hf] at hout
      dsimp only [Bind.bind, Except.bind] at hout
      cases hr : apply_binary_delta inflate delta_apply forward
          patch.binary.old_file with
      | error e =>
        rw [hr] at hout
        exact absurd hout (by simp)
      | ok reverse =>
        rw [hr] at hout
        dsimp only at hout
        by_cases hc : source.length ≠ reverse.length ∨ source ≠ reverse
        · rw [if_pos hc] at hout
          exact absurd hout (by simp)
        · rw [if_neg hc] at hout
          push_neg at hc
          injection hout with hout
          rw [hout] at hr
          rw [hr, hc.2]
  · intro forward reverse hf hr hrev
    rw [hf]
    dsimp only [Bind.bind, Except.bind]
    rw [hr]
    dsimp only
    rw [if_pos (Or.inr (fun hs => hrev hs.symm) :
      source.length ≠ reverse.length ∨ source ≠ reverse)]

/-- `GIT_FILEMODE_BLOB` (0100644 octal = 33188): the default
regular-file blob mode. -/
def GIT_FILEMODE_BLOB : Nat := 33188

/-- The observable outcome of `git_apply__patch`: the error return (if
any) and the three caller-visible out-parameters (`contents_out`,
`*filename_out`, `*mode_out`). -/
structure PatchOut where
  error : Option ApplyError
  contents_out : List Nat
  filename_out : Option String
  mode_out : Nat
deriving DecidableEq

/-- The dispatch in the middle of `git_apply__patch`: a delta with the
`GIT_DIFF_FLAG_BINARY` flag goes to `apply_binary`, a patch with a
non-empty hunk list to `apply_hunks`, and otherwise the source bytes
are copied to the output verbatim. -/
def apply_dispatch (inflate : List Nat → Option (List Nat))
    (delta_apply : List Nat → List Nat → Option (List Nat))
    (source : List Nat) (patch : GitPatch) : Except ApplyError (List Nat) :=
  if patch.delta.flag_binary then apply_binary inflate delta_apply source patch
  else if patch.hunks.length ≠ 0 then apply_hunks source patch
  else Except.ok source

/-- `git_apply__patch`: initialize `*filename_out = NULL` and
`*mode_out = 0`; for a non-deleted delta take a copy of
`new_file.path` and `new_file.mode` (defaulting to `GIT_FILEMODE_BLOB`
when the mode is zero); run the dispatch; fail a deleted patch whose
applied contents are non-empty with `removal patch leaves file
contents`; the filename and mode are written to the out-parameters
only on full success — every error path leaves them in their
initialized state (`git__free(filename)` then return).  `contents_out`
holds whatever the dispatch produced: nothing on its error paths (both
dispatchers dispose their output on failure). -/
def git_apply__patch (inflate : List Nat → Option (List Nat))
    (delta_apply : List Nat → List Nat → Option (List Nat))
    (source : List Nat) (patch : GitPatch) : PatchOut :=
  let filename : Option String :=
    if patch.delta.status ≠ DeltaStatus.deleted then
      some patch.delta.new_file.path
    else none
  let mode : Nat :=
    if patch.delta.status ≠ DeltaStatus.deleted then
      (if patch.delta.new_file.mode ≠ 0 then patch.delta.new_file.mode
        else GIT_FILEMODE_BLOB)
    else 0
  match apply_dispatch inflate delta_apply source patch with
  | Except.error e =>
    { error := some e, contents_out := [], filename_out := none, mode_out := 0 }
  | Except.ok contents =>
    if patch.delta.status = DeltaStatus.deleted ∧ 0 < contents.length then
      { error := some ApplyError.removalLeavesContents,
        contents_out := contents, filename_out := none, mode_out := 0 }
    else
      { error := none, contents_out := contents,
        filename_out := filename, mode_out := mode }

/-- C6: for every source and every patch whose delta status is
`deleted`, `git_apply__patch` leaves `*filename_out` null and
`*mode_out` zero, and either produces empty output bytes or — when the
dispatch result is non-empty — fails with `removal patch leaves file
contents`. -/
theorem C6_deleted_patch (inflate : List Nat → Option (List Nat))
    (delta_apply : List Nat → List Nat → Option (List Nat))
    (source : List Nat) (patch : GitPatch)
    (h : patch.delta.status = DeltaStatus.deleted) :
    (git_apply__patch inflate delta_apply source patch).filename_out = none ∧
    (git_apply__patch inflate delta_apply source patch).mode_out = 0 ∧
    ((git_apply__patch inflate delta_apply source patch).error = none →
      (git_apply__patch inflate delta_apply source patch).contents_out = []) ∧
    (∀ c, apply_dispatch inflate delta_apply source patch = Except.ok c →
      c ≠ [] →
      (git_apply__patch inflate delta_apply source patch).error =
        some ApplyError.removalLeavesContents) := by
  unfold git_apply__patch
  dsimp only
  cases hd : apply_dispatch inflate delta_apply source patch with
  | error e =>
    dsimp only
    exact ⟨rfl, rfl, by simp, fun c hc => absurd hc (by simp)⟩
  | ok contents =>
    dsimp only
    by_cases hne : patch.delta.status = DeltaStatus.deleted ∧
        0 < contents.length
    · rw [if_pos hne]
      exact ⟨rfl, rfl, by simp, fun c hc _ => rfl⟩
    · rw [if_neg hne]
      have hempty : contents = [] := by
        cases contents with
        | nil => rfl
        | cons x xs => exact absurd ⟨h, by simp⟩ hne
      refine ⟨by simp [h], by simp [h], fun _ => hempty, fun c hc hcne => ?_⟩
      injection hc with hc2
      rw [← hc2] at hcne
      exact absurd hempty hcne

/-- C7: for every source buffer and every non-deleted patch that is
not binary and has no hunks, `git_apply__patch` succeeds with the
source bytes verbatim, `*filename_out` a copy of the delta's
`new_file.path`, and `*mode_out` equal to `new_file.mode`, or
`GIT_FILEMODE_BLOB` when that mode is zero. -/
theorem C7_no_hunks_identity (inflate : List Nat → Option (List Nat))
    (delta_apply : List Nat → List Nat → Option (List Nat))
    (source : List Nat) (patch : GitPatch)
    (hst : patch.delta.status ≠ DeltaStatus.deleted)
    (hbin : patch.delta.flag_binary = false)
    (hhunks : patch.hunks = []) :
    git_apply__patch inflate delta_apply source patch =
      { error := none, contents_out := source,
        filename_out := some patch.delta.new_file.path,
        mode_out := if patch.delta.new_file.mode ≠ 0 then
          patch.delta.new_file.mode else GIT_FILEMODE_BLOB } := by
  unfold git_apply__patch apply_dispatch
  rw [hbin, hhunks]
  simp [hst]

/-- C10: on every error return of `git_apply__patch`, the
caller-visible output parameters remain in their initialized state:
`*filename_out` is null and `*mode_out` is zero. -/
theorem C10_error_outputs_initialized (inflate : List Nat → Option (List Nat))
    (delta_apply : List Nat → List Nat → Option (List Nat))
    (source : List Nat) (patch : GitPatch) (e : ApplyError)
    (h : (git_apply__patch inflate delta_apply source patch).error = some e) :
    (git_apply__patch inflate delta_apply source patch).filename_out = none ∧
    (git_apply__patch inflate delta_apply source patch).mode_out = 0 := by
  unfold git_apply__patch at h ⊢
  dsimp only at h ⊢
  cases hd : apply_dispatch inflate delta_apply source patch with
  | error e2 =>
    dsimp only
    exact ⟨rfl, rfl⟩
  | ok contents =>
    rw [hd] at h
    dsimp only at h ⊢
    by_cases hne : patch.delta.status = DeltaStatus.deleted ∧
        0 < contents.length
    · rw [if_pos hne]
      exact ⟨rfl, rfl⟩
    · rw [if_neg hne] at h
      exact absurd h (by simp)

theorem get?_some_parts {l : List DiffLine} {n : Nat} {a : DiffLine}
    (h : l.get? n = some a) : ∃ hn : n < l.length, l[n] = a := by
  rw [List.get?_eq_getElem?] at h
  exact List.getElem?_eq_some.mp h

/-- The slice of the patch's flat line table belonging to one hunk
(`line_start ≤ i < line_start + line_count`). -/
def hunk_slice (lines : List DiffLine) (hunk : GitPatchHunk) : List DiffLine :=
  (lines.drop hunk.line_start).take hunk.line_count

/-- Decidable check that every annotated line of a hunk exists in the
patch's line table and is an addition line. -/
def hunk_all_additions (lines : List DiffLine) (hunk : GitPatchHunk) : Bool :=
  (List.range hunk.line_count).all fun i =>
    match lines.get? (hunk.line_start + i) with
    | some l => decide (l.origin = LineOrigin.addition)
    | none => false

/-- Anchor discipline for a pure-addition patch applied to an empty
source: each hunk's anchor (`new_start == 0 ? 0 : new_start - 1`) is at
least the number of lines inserted by the preceding hunks, which `n`
accumulates. -/
def anchors_append_from (n : Nat) : List GitPatchHunk → Bool
  | [] => true
  | h :: hs =>
    decide (n ≤ (if h.new_start = 0 then 0 else h.new_start - 1)) &&
      anchors_append_from (n + h.line_count) hs

/-- The concatenation, in declared hunk order, of the hunks' annotated
lines. -/
def hunks_lines (lines : List DiffLine) (hs : List GitPatchHunk) : List DiffLine :=
  (hs.map (hunk_slice lines)).flatten

theorem hunk_all_additions_ex (lines : List DiffLine) (hunk : GitPatchHunk)
    (h : hunk_all_additions lines hunk = true) :
    ∀ i, i < hunk.line_count → ∃ l,
      lines.get? (hunk.line_start + i) = some l ∧
      l.origin = LineOrigin.addition := by
  intro i hi
  unfold hunk_all_additions at h
  have hall := List.all_eq_true.mp h i (List.mem_range.mpr hi)
  cases hg : lines.get? (hunk.line_start + i) with
  | none =>
    rw [hg] at hall
    exact absurd hall (by simp)
  | some l =>
    rw [hg] at hall
    simp only [decide_eq_true_eq] at hall
    exact ⟨l, rfl, hall⟩

theorem hunk_images_all_additions (lines : List DiffLine) :
    ∀ (count start : Nat),
      (∀ i, i < count → ∃ l, lines.get? (start + i) = some l ∧
        l.origin = LineOrigin.addition) →
      hunk_images lines start count =
        Except.ok ([], (lines.drop start).take count) := by
  intro count
  induction count with
  | zero =>
    intro start _
    simp [hunk_images]
  | succ k ih =>
    intro start hall
    obtain ⟨l, hl, hadd⟩ := hall 0 (by omega)
    rw [Nat.add_zero] at hl
    unfold hunk_images
    rw [hl]
    have ih2 := ih (start + 1) (fun i hi => by
      obtain ⟨l2, hl2, ha2⟩ := hall (i + 1) (by omega)
      refine ⟨l2, ?_, ha2⟩
      rw [show start + 1 + i = start + (i + 1) from by omega]
      exact hl2)
    rw [ih2]
    dsimp only [Bind.bind, Except.bind]
    rw [if_neg (by simp [hadd]), if_pos (Or.inr hadd)]
    obtain ⟨hlt, hget⟩ := get?_some_parts hl
    have hdrop : lines.drop start = l :: lines.drop (start + 1) := by
      rw [List.drop_eq_getElem_cons hlt, hget]
    rw [hdrop, List.take_succ_cons]

theorem hunk_slice_length (lines : List DiffLine) (hunk : GitPatchHunk)
    (h : hunk_all_additions lines hunk = true) :
    (hunk_slice lines hunk).length = hunk.line_count := by
  unfold hunk_slice
  rw [List.length_take, List.length_drop]
  cases hc : hunk.line_count with
  | zero => simp
  | succ k =>
    obtain ⟨l, hl, _⟩ := hunk_all_additions_ex lines hunk h k (by omega)
    obtain ⟨hlt, _⟩ := get?_some_parts hl
    omega

theorem apply_hunk_addition_append (patch : GitPatch) (image : List DiffLine)
    (hunk : GitPatchHunk)
    (hall : hunk_all_additions patch.lines hunk = true)
    (hanchor : image.length ≤
      (if hunk.new_start = 0 then 0 else hunk.new_start - 1)) :
    apply_hunk image patch hunk =
      Except.ok (image ++ hunk_slice patch.lines hunk) := by
  unfold apply_hunk find_hunk_linenum
  rw [hunk_images_all_additions patch.lines hunk.line_count hunk.line_start
    (hunk_all_additions_ex patch.lines hunk hall)]
  dsimp only [Bind.bind, Except.bind]
  have hclamp : ∀ a : Nat, image.length ≤ a →
      (if a > image.length then image.length else a) = image.length := by
    intro a ha
    split <;> omega
  rw [hclamp _ hanchor]
  have hm : match_hunk image [] image.length = true := by
    unfold match_hunk
    rw [if_neg (by simp)]
    simp
  rw [if_pos hm]
  unfold update_hunk
  rw [List.take_length]
  simp [hunk_slice]

theorem apply_hunks_additions_fold (patch : GitPatch) :
    ∀ (hs : List GitPatchHunk) (image : List DiffLine),
      (∀ h ∈ hs, hunk_all_additions patch.lines h = true) →
      anchors_append_from image.length hs = true →
      hs.foldlM (fun img h => apply_hunk img patch h) image =
        Except.ok (image ++ hunks_lines patch.lines hs) := by
  intro hs
  induction hs with
  | nil =>
    intro image _ _
    simp only [List.foldlM_nil, hunks_lines, List.map_nil, List.flatten_nil,
      List.append_nil]
    rfl
  | cons h0 hs ih =>
    intro image hall hanc
    simp only [anchors_append_from, Bool.and_eq_true, decide_eq_true_eq] at hanc
    obtain ⟨hle, hanc2⟩ := hanc
    have hall0 : hunk_all_additions patch.lines h0 = true :=
      hall h0 (by simp)
    rw [List.foldlM_cons]
    rw [apply_hunk_addition_append patch image h0 hall0 hle]
    dsimp only [Bind.bind, Except.bind]
    have hlen : (image ++ hunk_slice patch.lines h0).length =
        image.length + h0.line_count := by
      rw [List.length_append, hunk_slice_length patch.lines h0 hall0]
    rw [ih (image ++ hunk_slice patch.lines h0)
      (fun h hm => hall h (List.mem_cons_of_mem h0 hm))
      (by rw [hlen]; exact hanc2)]
    unfold hunks_lines
    simp [List.append_assoc]

/-- C9 (amended): for the empty source buffer and a non-binary patch
whose delta status is `added`, whose hunks' annotated lines all exist
and are addition lines, and whose hunk anchors are ordered so that each
hunk's anchor (`new_start == 0 ? 0 : new_start - 1`) is at least the
number of lines inserted by the preceding hunks, `git_apply__patch`
succeeds and its output bytes are exactly the concatenation of the
addition lines' contents in order. -/
theorem C9_amended_added_concat (inflate : List Nat → Option (List Nat))
    (delta_apply : List Nat → List Nat → Option (List Nat))
    (patch : GitPatch)
    (hst : patch.delta.status = DeltaStatus.added)
    (hbin : patch.delta.flag_binary = false)
    (hall : ∀ h ∈ patch.hunks, hunk_all_additions patch.lines h = true)
    (hanc : anchors_append_from 0 patch.hunks = true) :
    (git_apply__patch inflate delta_apply [] patch).error = none ∧
    (git_apply__patch inflate delta_apply [] patch).contents_out =
      image_serialize (hunks_lines patch.lines patch.hunks) := by
  have hnil : patch_image_init_fromstr [] = [] := by
    simp [patch_image_init_fromstr, split_lines]
  have hdisp : apply_dispatch inflate delta_apply [] patch =
      Except.ok (image_serialize (hunks_lines patch.lines patch.hunks)) := by
    unfold apply_dispatch
    rw [hbin]
    simp only [Bool.false_eq_true, if_false]
    by_cases hh : patch.hunks.length ≠ 0
    · rw [if_pos hh]
      unfold apply_hunks
      dsimp only
      rw [hnil]
      rw [apply_hunks_additions_fold patch patch.hunks [] hall hanc]
      dsimp only [Bind.bind, Except.bind]
      rw [List.nil_append]
    · rw [if_neg hh]
      push_neg at hh
      rw [List.length_eq_zero.mp hh]
      simp [hunks_lines, image_serialize]
  unfold git_apply__patch
  rw [hdisp]
  dsimp only
  have hnd : ¬(patch.delta.status = DeltaStatus.deleted ∧
      0 < (image_serialize (hunks_lines patch.lines patch.hunks)).length) := by
    rintro ⟨hc, _⟩
    rw [hst] at hc
    cases hc
  rw [if_neg hnd]
  exact ⟨rfl, rfl⟩

/-- A collaborator instance for witnesses: an inflate that always
fails (never reached on the inputs it is used with). -/
def inflate_stub : List Nat → Option (List Nat) := fun _ => none

/-- A collaborator instance for witnesses: a `git_delta_apply` that
always fails (never reached on the inputs it is used with). -/
def delta_apply_stub : List Nat → List Nat → Option (List Nat) := fun _ _ => none

/-- An empty binary payload pair (`contains_data` unset). -/
def no_binary : DiffBinary :=
  { contains_data := false,
    old_file := { kind := BinaryKind.noneKind, data := [], inflatedlen := 0 },
    new_file := { kind := BinaryKind.noneKind, data := [], inflatedlen := 0 } }

/-- The C9 counterexample patch: delta status `added`, not binary, two
hunks of one addition line each, both anchored at `new_start = 1`. -/
def c9_patch : GitPatch :=
  { delta :=
      { status := DeltaStatus.added, flag_binary := false,
        old_file := { path := "f", mode := 0 },
        new_file := { path := "f", mode := 0 } },
    lines :=
      [{ content := [1], origin := LineOrigin.addition },
       { content := [2], origin := LineOrigin.addition }],
    hunks :=
      [{ new_start := 1, line_start := 0, line_count := 1 },
       { new_start := 1, line_start := 1, line_count := 1 }],
    binary := no_binary }

/-- C9 counterexample: applying `c9_patch` — empty source, status
`added`, hunks containing only addition lines — succeeds, but the
output `[2, 1]` is not `[1, 2]`, the concatenation of the addition
lines' contents in order: the second hunk's anchor places its line
before the first hunk's line. -/
theorem C9_counterexample :
    (git_apply__patch inflate_stub delta_apply_stub [] c9_patch).error =
      none ∧
    (git_apply__patch inflate_stub delta_apply_stub [] c9_patch).contents_out ≠
      ((c9_patch.lines.filter
        (fun l => decide (l.origin = LineOrigin.addition))).map
          DiffLine.content).flatten := by
  have hnil : patch_image_init_fromstr [] = [] := by
    simp [patch_image_init_fromstr, split_lines]
  have hev : git_apply__patch inflate_stub delta_apply_stub [] c9_patch =
      { error := none, contents_out := [2, 1],
        filename_out := some "f", mode_out := GIT_FILEMODE_BLOB } := by
    unfold git_apply__patch apply_dispatch apply_hunks
    rw [hnil]
    decide
  rw [hev]
  exact ⟨rfl, by decide⟩

/-- The C9 witness patch: one hunk carrying two addition lines. -/
def c9w_patch : GitPatch :=
  { delta :=
      { status := DeltaStatus.added, flag_binary := false,
        old_file := { path := "g", mode := 0 },
        new_file := { path := "g", mode := 0 } },
    lines :=
      [{ content := [1], origin := LineOrigin.addition },
       { content := [2], origin := LineOrigin.addition }],
    hunks := [{ new_start := 1, line_start := 0, line_count := 2 }],
    binary := no_binary }

theorem C9_amended_witness :
    (git_apply__patch inflate_stub delta_apply_stub [] c9w_patch).error =
      none ∧
    (git_apply__patch inflate_stub delta_apply_stub [] c9w_patch).contents_out =
      [1, 2] := by
  have h := C9_amended_added_concat inflate_stub delta_apply_stub c9w_patch
    rfl rfl (by decide) (by decide)
  exact ⟨h.1, h.2.trans rfl⟩

/-- A postimage index entry: the fields `apply_one` sets on
`git_index_entry` (`path`, `mode`, blob `id`). -/
structure IndexEntry where
  path : String
  mode : Nat
  id : Nat
deriving DecidableEq

/-- Modelled from the spec: the *Index* collaborator's `remove(path)`
operation (`git_index_remove(postimage, delta->old_file.path, 0)`); the
index is a mapping from path to entry, and removal deletes the path's
entry.  index.c is not part of this source tree. -/
def index_remove (index : List IndexEntry) (path : String) : List IndexEntry :=
  index.filter (fun e => decide (e.path ≠ path))

/-- The pre-pass loop of `git_apply_tree`: for each delta of the diff
in declared order, remove `old_file.path` from the postimage index,
before the apply pass runs. -/
def apply_tree_prepass (postimage : List IndexEntry)
    (deltas : List DiffDelta) : List IndexEntry :=
  deltas.foldl (fun idx d => index_remove idx d.old_file.path) postimage

theorem apply_tree_prepass_subset (deltas : List DiffDelta) :
    ∀ (postimage : List IndexEntry) (e : IndexEntry),
      e ∈ apply_tree_prepass postimage deltas → e ∈ postimage := by
  induction deltas with
  | nil =>
    intro postimage e he
    exact he
  | cons d ds ih =>
    intro postimage e he
    exact List.mem_of_mem_filter
      (ih (index_remove postimage d.old_file.path) e he)

/-- C8: the pre-pass iterates every delta in declared order and
removes that delta's `old_file.path` from the postimage index, so that
at the start of the apply pass no delta's old path remains — for any
index the pass starts from (the tree seed in `git_apply_tree`; the
apply pass of `git_apply` starts from a newly created empty index,
which the statement covers as the `[]` instance). -/
theorem C8_prepass_removes_old_paths (postimage : List IndexEntry)
    (deltas : List DiffDelta) (d : DiffDelta) (hd : d ∈ deltas) :
    ∀ e ∈ apply_tree_prepass postimage deltas,
      e.path ≠ d.old_file.path := by
  revert hd
  induction deltas generalizing postimage with
  | nil =>
    intro hd
    cases hd
  | cons d0 ds ih =>
    intro hd e he
    have he2 : e ∈ apply_tree_prepass
        (index_remove postimage d0.old_file.path) ds := he
    rcases List.mem_cons.mp hd with heq | hmem
    · subst heq
      have hsub : e ∈ index_remove postimage d.old_file.path :=
        apply_tree_prepass_subset ds _ e he2
      have hp := List.of_mem_filter hsub
      simpa using hp
    · exact ih (index_remove postimage d0.old_file.path) hmem e he2

/-- The delta for the C8 witness: a rename from `old` to `new`. -/
def c8_delta : DiffDelta :=
  { status := DeltaStatus.renamed, flag_binary := false,
    old_file := { path := "old", mode := 33188 },
    new_file := { path := "new", mode := 33188 } }

/-- The initial postimage index for the C8 witness. -/
def c8_index : List IndexEntry :=
  [{ path := "old", mode := 33188, id := 1 },
   { path := "keep", mode := 33188, id := 2 }]

/-- The surviving entry used in the C8 witness. -/
def c8_keep : IndexEntry := { path := "keep", mode := 33188, id := 2 }

theorem C8_witness : c8_keep.path ≠ c8_delta.old_file.path :=
  C8_prepass_removes_old_paths c8_index [c8_delta] c8_delta
    (List.mem_singleton.mpr rfl) c8_keep (by decide)

/-- A collaborator instance for binary witnesses: an inflation that
returns the payload bytes unchanged. -/
def inflate_raw : List Nat → Option (List Nat) := fun b => some b

/-- The binary patch of spec scenario 6 for the C4 witness: `new_file`
inflates to `[2, 3, 4]`, `old_file` inflates to `[0, 2]`, while the
source is `[0, 1]` — the round-trip check must fail. -/
def c4_patch : GitPatch :=
  { delta :=
      { status := DeltaStatus.modified, flag_binary := true,
        old_file := { path := "b", mode := 33188 },
        new_file := { path := "b", mode := 33188 } },
    lines := [], hunks := [],
    binary :=
      { contains_data := true,
        old_file :=
          { kind := BinaryKind.literal, data := [0, 2], inflatedlen := 2 },
        new_file :=
          { kind := BinaryKind.literal, data := [2, 3, 4], inflatedlen := 3 } } }

theorem C4_witness :
    apply_binary inflate_raw delta_apply_stub [0, 1] c4_patch =
      Except.error ApplyError.binaryNotClean :=
  (C4_binary_roundtrip inflate_raw delta_apply_stub [0, 1] c4_patch rfl
    (Or.inl (by decide))).2 [2, 3, 4] [0, 2] rfl rfl (by decide)

/-- A literal payload declaring `inflatedlen = 5` while its data
inflates to one byte, for the C5 witness. -/
def c5_payload : BinaryFilePayload :=
  { kind := BinaryKind.literal, data := [9], inflatedlen := 5 }

theorem C5_witness :
    apply_binary_delta inflate_raw delta_apply_stub [] c5_payload =
      Except.error ApplyError.inflatedLenMismatch :=
  (C5_inflatedlen_authoritative inflate_raw delta_apply_stub [] c5_payload
    [9] (by decide) rfl).mpr (by decide)

/-- A deletion patch with no hunks for the C6 witness. -/
def c6_patch : GitPatch :=
  { delta :=
      { status := DeltaStatus.deleted, flag_binary := false,
        old_file := { path := "d", mode := 33188 },
        new_file := { path := "d", mode := 0 } },
    lines := [], hunks := [], binary := no_binary }

theorem C6_witness :
    (git_apply__patch inflate_stub delta_apply_stub [] c6_patch).filename_out =
      none ∧
    (git_apply__patch inflate_stub delta_apply_stub [] c6_patch).mode_out = 0 :=
  ⟨(C6_deleted_patch inflate_stub delta_apply_stub [] c6_patch rfl).1,
   (C6_deleted_patch inflate_stub delta_apply_stub [] c6_patch rfl).2.1⟩

/-- A rename-only patch (no hunks, not binary, zero new mode) for the
C7 witness. -/
def c7_patch : GitPatch :=
  { delta :=
      { status := DeltaStatus.renamed, flag_binary := false,
        old_file := { path := "from", mode := 33188 },
        new_file := { path := "to", mode := 0 } },
    lines := [], hunks := [], binary := no_binary }

theorem C7_witness :
    git_apply__patch inflate_stub delta_apply_stub [7] c7_patch =
      { error := none, contents_out := [7], filename_out := some "to",
        mode_out := GIT_FILEMODE_BLOB } :=
  (C7_no_hunks_identity inflate_stub delta_apply_stub [7] c7_patch
    (by decide) rfl rfl).trans (by decide)

/-- A binary-flagged patch carrying no binary data, for the C10
witness: application fails with `patch does not contain binary data`. -/
def c10_patch : GitPatch :=
  { delta :=
      { status := DeltaStatus.modified, flag_binary := true,
        old_file := { path := "x", mode := 33188 },
        new_file := { path := "x", mode := 33188 } },
    lines := [], hunks := [], binary := no_binary }

theorem C10_witness :
    (git_apply__patch inflate_stub delta_apply_stub [] c10_patch).filename_out =
      none ∧
    (git_apply__patch inflate_stub delta_apply_stub [] c10_patch).mode_out = 0 :=
  C10_error_outputs_initialized inflate_stub delta_apply_stub [] c10_patch
    ApplyError.noBinaryData (by decide)

/-- The hunk of the C3 witness (anchor `new_start - 1 = 0`). -/
def c3_hunk : GitPatchHunk := { new_start := 1, line_start := 0, line_count := 4 }

/-- The patch of the C3 witness: context `A\n`, deletion `B\n`,
addition `B2\n`, context `C\n` in one hunk. -/
def c3_patch : GitPatch :=
  { delta :=
      { status := DeltaStatus.modified, flag_binary := false,
        old_file := { path := "t", mode := 33188 },
        new_file := { path := "t", mode := 33188 } },
    lines :=
      [{ content := [65, 10], origin := LineOrigin.context },
       { content := [66, 10], origin := LineOrigin.deletion },
       { content := [66, 50, 10], origin := LineOrigin.addition },
       { content := [67, 10], origin := LineOrigin.context }],
    hunks := [c3_hunk],
    binary := no_binary }

/-- The image `A\nB\nC\n` for the C3 witness. -/
def c3_image : List DiffLine :=
  [{ content := [65, 10], origin := LineOrigin.unset },
   { content := [66, 10], origin := LineOrigin.unset },
   { content := [67, 10], origin := LineOrigin.unset }]

/-- The preimage sequence of the C3 witness hunk. -/
def c3_pre : List DiffLine :=
  [{ content := [65, 10], origin := LineOrigin.context },
   { content := [66, 10], origin := LineOrigin.deletion },
   { content := [67, 10], origin := LineOrigin.context }]

/-- The postimage sequence of the C3 witness hunk. -/
def c3_post : List DiffLine :=
  [{ content := [65, 10], origin := LineOrigin.context },
   { content := [66, 50, 10], origin := LineOrigin.addition },
   { content := [67, 10], origin := LineOrigin.context }]

theorem C3_witness :
    apply_hunk c3_image c3_patch c3_hunk =
      Except.ok (update_hunk c3_image
        (min (if c3_hunk.new_start = 0 then 0 else c3_hunk.new_start - 1)
          c3_image.length) c3_pre c3_post) :=
  (C3_apply_hunk_single_anchor c3_image c3_patch c3_hunk c3_pre c3_post
    rfl).2 (by decide)
